import Mathlib

/-!
Verification of the pygaposa polling/eventual-consistency engine.

This file shallowly embeds the parts of the repository that the reviewed
properties are about:

* `pygaposa/poll_manager.py` — the `PollManager` class: its constants, the
  `wait_for_condition` registration (lines 36-47), the `execute` polling loop
  (lines 49-84) and `numConditions` (lines 86-87).  The loop body is embedded
  as `iteration`; the `while self.waiters` loop as the fueled `runAux`/`run`.
  Caller-supplied predicates are modelled as `Nat → Option Bool`, a function of
  the fetch index (each fetch replaces the snapshot the Python callable reads);
  `none` models the callable raising.  The outcome of one `poll()` attempt is
  modelled by `FetchOutcome`; `devicebase.py` raises a plain `Exception` when
  the document store returns no value (lines 33-36), which arrives here as
  `FetchOutcome.err`.
* task creation and clearing (poll_manager.py lines 44-45 and 84) as a small
  event machine `taskStep` over `TaskState`, used for the single-flight
  invariant.
* `pygaposa/motor.py` (`MotorImpl.command`, lines 32-35), `pygaposa/model.py`
  (`expectedState`, lines 135-141) and the `Command` enum of
  `pygaposa/api_types.py` (lines 56-59).
* the two `Device.onListUpdated` reconciliation routines, `pygaposa/device.py`
  lines 81-93 and `pygaposa/model.py` lines 367-381, together with
  `Motor.update` (model.py lines 64-72) and `Group.update` (group.py
  lines 16-22).
-/

namespace Pygaposa

/-! ## poll_manager.py constants (lines 5-7) -/

def POLL_INTERVAL : Nat := 2

def POLL_RETRIES : Nat := 5

def POLL_TIMEOUT : Nat := 10

/-! ## Waiters and manager state -/

/-- One entry of `self.waiters`: the caller-supplied condition (or `None`)
paired with the caller's `asyncio.Event`, identified by `wid`.  The condition
is a function of the fetch index; `none` as its result models the Python
callable raising an exception. -/
structure Waiter where
  wid : Nat
  cond : Option (Nat → Option Bool)

/-- The mutable state of a `PollManager`: the waiter list, the shared
`self.retries` counter, and whether `self.pollingTask` is set (not `None`). -/
structure MState where
  waiters : List Waiter
  retries : Nat
  pollingTask : Bool

/-- `numConditions` (poll_manager.py lines 86-87): the number of waiters whose
condition is not `None`. -/
def numConditions (ws : List Waiter) : Nat :=
  (ws.filter (fun w => w.cond.isSome)).length

/-- Evaluation of `condition is None or condition()` for one waiter after
fetch `k`.  A `None` condition is satisfied without calling anything; an
exception in the callable surfaces as `none`. -/
def condMet (w : Waiter) (k : Nat) : Option Bool :=
  match w.cond with
  | none => some true
  | some p => p k

/-- The list comprehension computing `met` (poll_manager.py lines 64-68),
evaluated left to right, together with the subsequent removal of the met
waiters (lines 70-72): returns `(met, remaining)`, or `none` as soon as one
condition raises, in which case no event has been set. -/
def splitMet (k : Nat) : List Waiter → Option (List Waiter × List Waiter)
  | [] => some ([], [])
  | w :: ws =>
    match condMet w k with
    | none => none
    | some b =>
      (splitMet k ws).map fun mr =>
        if b then (w :: mr.1, mr.2) else (mr.1, w :: mr.2)

/-! ## Fetch outcomes and logging -/

/-- How one `await asyncio.wait_for(self.poll(), POLL_TIMEOUT)` attempt ends:
normal completion, `asyncio.TimeoutError`, or any other `Exception` (for
example the `Exception("Failed to get device document")` raised by
`DeviceBase.doUpdate` when the store returns no snapshot). -/
inductive FetchOutcome where
  | ok
  | timeout
  | err (msg : String)

/-- Error-level log records produced inside `execute`. -/
inductive LogEntry where
  | timeoutLogged
  | errorLogged (msg : String)
  | retriesExceeded

/-- The `try`/`except` clauses of poll_manager.py lines 55-60: a timeout and
any other exception are caught and logged; nothing is re-raised. -/
def fetchLogs : FetchOutcome → List LogEntry
  | .ok => []
  | .timeout => [.timeoutLogged]
  | .err m => [.errorLogged m]

/-! ## One iteration of the polling loop -/

/-- Result of one pass through the body of `while self.waiters` in `execute`:
either the loop body completed (`ok`, with the new state, the ids of the
waiters whose events were set, whether the give-up branch ran, and the log
records), or a caller-supplied condition raised while `met` was being
computed (`crashed`, with the state left behind). -/
inductive IterResult where
  | ok (state : MState) (released : List Nat) (gaveUp : Bool) (logs : List LogEntry)
  | crashed (state : MState) (logs : List LogEntry)

/-- The body of the `while self.waiters` loop of `execute` (poll_manager.py
lines 53-82) for fetch number `k`.  `arrivals` are the waiters appended by
`wait_for_condition` calls that run while `self.poll()` is being awaited; each
such call also assigns `self.retries = 0` (line 42).  Steps, in source order:
record `numConditions()`; await the fetch (arrivals land here, outcome is
logged per `fetchLogs`); compare the conditioned count before and after the
fetch into `sleep`; compute `met` and remove/resolve those waiters; then, if
waiters remain and `sleep` holds, bump `self.retries` and either give up
(resolve everyone, clear the list) or sleep `POLL_INTERVAL` and go round. -/
def iteration (k : Nat) (outcome : FetchOutcome) (arrivals : List Waiter)
    (s : MState) : IterResult :=
  let nc0 := numConditions s.waiters
  let ws1 := s.waiters ++ arrivals
  let r1 := if arrivals.isEmpty then s.retries else 0
  let logs0 := fetchLogs outcome
  let sleep := nc0 == numConditions ws1
  match splitMet k ws1 with
  | none => .crashed { waiters := ws1, retries := r1, pollingTask := true } logs0
  | some (met, rest) =>
    if rest.isEmpty then
      .ok { waiters := rest, retries := r1, pollingTask := true }
        (met.map Waiter.wid) false logs0
    else if sleep then
      if POLL_RETRIES < r1 + 1 then
        .ok { waiters := [], retries := r1 + 1, pollingTask := true }
          (met.map Waiter.wid ++ rest.map Waiter.wid) true
          (logs0 ++ [.retriesExceeded])
      else
        .ok { waiters := rest, retries := r1 + 1, pollingTask := true }
          (met.map Waiter.wid) false logs0
    else
      .ok { waiters := rest, retries := r1, pollingTask := true }
        (met.map Waiter.wid) false logs0

/-! ## The full polling loop -/

/-- Result of running `execute` to completion (or until the fuel bound): the
final manager state, the number of `poll()` invocations, the `(wid, fetch
index)` pairs recording which waiter was released after which fetch, and the
log records. -/
inductive RunResult where
  | done (final : MState) (fetches : Nat) (released : List (Nat × Nat))
      (logs : List LogEntry)
  | crashed (final : MState) (fetches : Nat) (released : List (Nat × Nat))
      (logs : List LogEntry)
  | outOfFuel (final : MState) (fetches : Nat) (released : List (Nat × Nat))
      (logs : List LogEntry)

/-- `execute` (poll_manager.py lines 49-84) from an arbitrary point: `k` fetches
have happened so far, `rel` and `logs` accumulate releases and log records.
When the waiter list is empty the loop exits and `self.pollingTask = None`
runs (line 84).  An uncaught condition exception ends the task abnormally:
line 84 never runs, so the handle stays set.  `fuel` bounds the number of
iterations; it is a modelling artefact (the Python loop may genuinely run
forever when new waiters keep arriving). -/
def runAux (outcomes : Nat → FetchOutcome) (arrivals : Nat → List Waiter) :
    Nat → Nat → MState → List (Nat × Nat) → List LogEntry → RunResult
  | 0, k, s, rel, logs => .outOfFuel s k rel logs
  | fuel + 1, k, s, rel, logs =>
    if s.waiters.isEmpty then
      .done { s with pollingTask := false } k rel logs
    else
      match iteration (k + 1) (outcomes (k + 1)) (arrivals (k + 1)) s with
      | .crashed cs ilogs => .crashed cs (k + 1) rel (logs ++ ilogs)
      | .ok st irel _ ilogs =>
        runAux outcomes arrivals fuel (k + 1) st
          (rel ++ irel.map fun wid => (wid, k + 1)) (logs ++ ilogs)

/-- A fresh `execute` task: no fetches or releases have happened yet. -/
def run (outcomes : Nat → FetchOutcome) (arrivals : Nat → List Waiter)
    (fuel : Nat) (s : MState) : RunResult :=
  runAux outcomes arrivals fuel 0 s [] []

/-- The outcome-visible part of a `RunResult`: everything except the log
records (the first component tags the constructor). -/
def RunResult.core : RunResult → Nat × MState × Nat × List (Nat × Nat)
  | .done s f r _ => (0, s, f, r)
  | .crashed s f r _ => (1, s, f, r)
  | .outOfFuel s f r _ => (2, s, f, r)

/-- The outcome-visible part of an `IterResult`. -/
def IterResult.core : IterResult → Bool × MState × List Nat × Bool
  | .ok st rel g _ => (true, st, rel, g)
  | .crashed st _ => (false, st, [], false)

/-! ## Registration -/

/-- The body of `wait_for_condition` up to `await event.wait()`
(poll_manager.py lines 36-47): append the new waiter, set the shared retry
counter to 0, and create a polling task if and only if `self.pollingTask` is
`None`.  Returns the new state and whether a task was created. -/
def register (w : Waiter) (s : MState) : MState × Bool :=
  ({ waiters := s.waiters ++ [w], retries := 0, pollingTask := true },
    !s.pollingTask)

/-- `wait_for_update` (poll_manager.py lines 30-34): it just calls
`wait_for_condition()` with the default `None` condition. -/
def registerForUpdate (wid : Nat) (s : MState) : MState × Bool :=
  register { wid := wid, cond := none } s

/-- Consecutive `wait_for_condition` calls (no fetch completes in between):
each one runs `register`; the second component counts created tasks. -/
def registerMany : List Waiter → MState → MState × Nat
  | [], s => (s, 0)
  | w :: ws, s =>
    let r := register w s
    let rest := registerMany ws r.1
    (rest.1, (if r.2 then 1 else 0) + rest.2)

/-! ## Task lifecycle (single flight) -/

/-- Observable task bookkeeping of a `PollManager`: whether `self.pollingTask`
is set, and how many `execute` tasks are actually alive. -/
structure TaskState where
  handle : Bool
  live : Nat

/-- Task lifecycle events: a `wait_for_condition` call (which creates a task
exactly when the handle is unset, lines 44-45), normal completion of `execute`
(which clears the handle, line 84), and abnormal termination by an uncaught
condition exception (the task dies, the handle stays set).  Completion events
require a live task. -/
inductive PmEvent where
  | reg
  | finish
  | crash

/-- One task-lifecycle transition; `none` means the event is impossible in the
given state. -/
def taskStep (s : TaskState) : PmEvent → Option TaskState
  | .reg => some (if s.handle then s else { handle := true, live := s.live + 1 })
  | .finish =>
    if s.live = 0 then none else some { handle := false, live := s.live - 1 }
  | .crash =>
    if s.live = 0 then none else some { handle := s.handle, live := s.live - 1 }

/-- A freshly constructed `PollManager`: `self.pollingTask = None`, no task. -/
def initTasks : TaskState := { handle := false, live := 0 }

/-- Replay a sequence of task-lifecycle events from a given state. -/
def runEventsFrom (evs : List PmEvent) (s : TaskState) : Option TaskState :=
  evs.foldl (fun acc ev => acc.bind fun t => taskStep t ev) (some s)

/-- Replay a sequence of task-lifecycle events from a fresh manager. -/
def runEvents (evs : List PmEvent) : Option TaskState :=
  runEventsFrom evs initTasks

/-- At most one `execute` task alive, and a live task implies the handle is
set. -/
def TaskInv (s : TaskState) : Prop :=
  s.live ≤ 1 ∧ (s.handle = false → s.live = 0)

/-! ## Motor commands (motor.py, model.py, api_types.py) -/

/-- The four names the source writes as `Command.<name>` (motor.py lines 16-30,
model.py lines 135-141). -/
inductive CommandName where
  | UP
  | DOWN
  | STOP
  | PRESET
deriving DecidableEq, Repr

/-- The members the `Command` enum of api_types.py actually defines
(lines 56-59): `DOWN = "0xee"`, `UP = "0xdd"`, `STOP = "0xcc"` — and nothing
else. -/
inductive Command where
  | UP
  | DOWN
  | STOP
deriving DecidableEq, Repr

/-- Python attribute lookup `Command.<name>` on the api_types.py enum; `none`
models the `AttributeError` raised for a name the enum does not define. -/
def commandMember : CommandName → Option Command
  | .UP => some .UP
  | .DOWN => some .DOWN
  | .STOP => some .STOP
  | .PRESET => none

/-- The key/value pairs of the dict literal inside `expectedState`
(model.py lines 136-141) exactly as written, keyed by the source-level name. -/
def expectedStateTable : CommandName → String
  | .UP => "UP"
  | .DOWN => "DOWN"
  | .STOP => "STOP"
  | .PRESET => "STOP"

/-- `expectedState` (model.py lines 135-141): each call builds the dict
`Command.UP: "UP", Command.DOWN: "DOWN", Command.STOP: "STOP",
Command.PRESET: "STOP"` and indexes it with the given command.  Evaluating the
dict literal evaluates every key, including `Command.PRESET`; `none` models the
resulting exception. -/
def expectedState (c : Command) : Option String :=
  (commandMember .UP).bind fun kUp =>
    (commandMember .DOWN).bind fun kDown =>
      (commandMember .STOP).bind fun kStop =>
        (commandMember .PRESET).bind fun kPreset =>
          [(kUp, expectedStateTable .UP), (kDown, expectedStateTable .DOWN),
              (kStop, expectedStateTable .STOP),
              (kPreset, expectedStateTable .PRESET)].lookup c

/-- The awaited steps of `MotorImpl.command` (motor.py lines 32-35). -/
inductive MotorAction where
  | control (cmd : Command) (scope : String) (id : String)
  | sleepSecs (n : Nat)
  | updateWithCondition
deriving DecidableEq, Repr

/-- The post-command condition `lambda: self.state == expectedState(command)`
(motor.py line 35), evaluated against the motor state read from the refreshed
document; it raises (`none`) whenever `expectedState` raises. -/
def motorCondition (cmd : Command) (state : String) : Option Bool :=
  (expectedState cmd).map fun e => state == e

/-- `MotorImpl.command` (motor.py lines 32-35): one `api.control` call with
scope `"channel"`, a fixed `asyncio.sleep(2)`, then `device.update` with the
state condition. -/
def motorCommand (cmd : Command) (id : String) : List MotorAction :=
  [.control cmd "channel" id, .sleepSecs 2, .updateWithCondition]

/-- `MotorImpl.up` (motor.py lines 16-18): resolves `Command.UP`, then runs
`command`; `none` would mean the member lookup raised. -/
def motorUp (id : String) : Option (List MotorAction) :=
  (commandMember .UP).map fun c => motorCommand c id

/-- `MotorImpl.down` (motor.py lines 20-22). -/
def motorDown (id : String) : Option (List MotorAction) :=
  (commandMember .DOWN).map fun c => motorCommand c id

/-- `MotorImpl.stop` (motor.py lines 24-26). -/
def motorStop (id : String) : Option (List MotorAction) :=
  (commandMember .STOP).map fun c => motorCommand c id

/-- `MotorImpl.preset` (motor.py lines 28-30): evaluates `Command.PRESET`
before anything is awaited. -/
def motorPreset (id : String) : Option (List MotorAction) :=
  (commandMember .PRESET).map fun c => motorCommand c id

/-! ## Entity-list reconciliation (device.py and model.py) -/

/-- A domain entity (motor, room, group or schedule).  `uid` stands for the
Python object identity, which an in-place `update` preserves; `eid` is the
`.id` field; `val` abstracts the remaining fields copied from the document. -/
structure Entity where
  uid : Nat
  eid : String
  val : Nat
deriving DecidableEq, Repr

/-- One key/value pair of the update dict fetched from the document. -/
structure Init where
  key : String
  ival : Nat
deriving DecidableEq, Repr

/-- `findById` (device.py lines 121-125): first item with a matching id. -/
def findById (items : List Entity) (id : String) : Option Entity :=
  items.find? fun it => it.eid == id

/-- `update[id]` on the update dict. -/
def lookupInit (upd : List Init) (id : String) : Option Init :=
  upd.find? fun i => i.key == id

/-- `Motor.update` (model.py lines 64-72): copies the document fields onto the
existing object — same `uid`, new `val` — and falls off the end, so its return
value is `None`.  The pair is (object after mutation, return value). -/
def motorUpdate (e : Entity) (info : Init) : Entity × Option Entity :=
  ({ e with val := info.ival }, none)

/-- `Group.update` (group.py lines 16-22): the same in-place mutation, but the
method ends with `return self`. -/
def groupUpdate (e : Entity) (info : Init) : Entity × Option Entity :=
  ({ e with val := info.ival }, some { e with val := info.ival })

/-- `Device.onListUpdated` as written in device.py (lines 81-93): the list
comprehension collects `item.update(update[item.id])` — the update method's
RETURN VALUE — for every existing item whose id is a key of the update dict,
then appends a freshly constructed entity for every update key with no
existing item.  Fresh objects get identities `freshUid`, `freshUid + 1`, …  -/
def onListUpdatedDevice (updateFn : Entity → Init → Entity × Option Entity)
    (items : List Entity) (upd : List Init) (freshUid : Nat) :
    List (Option Entity) :=
  (items.filter fun it => (lookupInit upd it.eid).isSome).map
      (fun it =>
        match lookupInit upd it.eid with
        | some info => (updateFn it info).2
        | none => none)
    ++ ((upd.filter fun i => (findById items i.key).isNone).enum.map
      fun iv => some ⟨freshUid + iv.1, iv.2.key, iv.2.ival⟩)

/-- `Device.onListUpdated` as written in model.py (lines 367-381): iterate the
update dict in order; an existing item with that key is mutated in place and
appended itself, otherwise a fresh entity is constructed and appended. -/
def onListUpdatedModel (items : List Entity) (freshUid : Nat) :
    List Init → List Entity
  | [] => []
  | i :: rest =>
    match findById items i.key with
    | some it => { it with val := i.ival } :: onListUpdatedModel items freshUid rest
    | none => ⟨freshUid, i.key, i.ival⟩ :: onListUpdatedModel items (freshUid + 1) rest

/-! ## Concrete caller-supplied conditions used in scenarios -/

/-- A predicate that returns `True` on every evaluation. -/
def alwaysTrue : Nat → Option Bool := fun _ => some true

/-- A predicate that returns `False` on every evaluation. -/
def alwaysFalse : Nat → Option Bool := fun _ => some false

/-- A predicate that raises on every evaluation. -/
def alwaysRaise : Nat → Option Bool := fun _ => none

/-- Concrete waiter with id 0 and a never-true condition. -/
def wFalseA : Waiter := ⟨0, some alwaysFalse⟩

/-- Concrete waiter with id 1 and a never-true condition. -/
def wFalseB : Waiter := ⟨1, some alwaysFalse⟩

/-- Concrete waiter with id 1 and an immediately-true condition. -/
def wTrue1 : Waiter := ⟨1, some alwaysTrue⟩

/-- Concrete waiter with id 2 and a never-true condition. -/
def wFalse2 : Waiter := ⟨2, some alwaysFalse⟩

/-- Concrete waiter with id 2 and no condition (a `wait_for_update` caller). -/
def wNone2 : Waiter := ⟨2, none⟩

/-- Concrete waiter with id 3 whose condition raises when evaluated. -/
def wRaise3 : Waiter := ⟨3, some alwaysRaise⟩

/-! ## Lemmas about `splitMet` -/

theorem splitMet_none_iff (k : Nat) (ws : List Waiter) :
    splitMet k ws = none ↔ ∃ w ∈ ws, condMet w k = none := by
  induction ws with
  | nil => simp [splitMet]
  | cons w ws ih =>
    cases h : condMet w k with
    | none => simp [splitMet, h]
    | some b =>
      simp only [splitMet, h]
      cases hs : splitMet k ws with
      | none => simp [hs, ih.mp hs, List.exists_mem_cons_iff]
      | some mr =>
        simp only [Option.map_some, List.exists_mem_cons_iff]
        constructor
        · intro hc
          exact absurd hc (by simp)
        · rintro (hc | hc)
          · rw [h] at hc
            exact absurd hc (by simp)
          · have := ih.mpr hc
            rw [hs] at this
            exact absurd this (by simp)

theorem splitMet_total (k : Nat) (ws : List Waiter)
    (h : ∀ w ∈ ws, condMet w k ≠ none) :
    ∃ met rest, splitMet k ws = some (met, rest) := by
  cases hs : splitMet k ws with
  | none =>
    obtain ⟨w, hw, hc⟩ := (splitMet_none_iff k ws).mp hs
    exact absurd hc (h w hw)
  | some mr => exact ⟨mr.1, mr.2, rfl⟩

theorem splitMet_all_false (k : Nat) (ws : List Waiter)
    (h : ∀ w ∈ ws, condMet w k = some false) :
    splitMet k ws = some ([], ws) := by
  induction ws with
  | nil => rfl
  | cons w ws ih =>
    have hw : condMet w k = some false := h w (List.mem_cons_self w ws)
    rw [splitMet, hw, ih fun w2 hw2 => h w2 (List.mem_cons_of_mem w hw2)]
    rfl

theorem splitMet_mem_met (k : Nat) (ws met rest : List Waiter)
    (hs : splitMet k ws = some (met, rest)) :
    ∀ w ∈ ws, condMet w k = some true → w ∈ met := by
  induction ws generalizing met rest with
  | nil => intro w hw; simp at hw
  | cons v ws ih =>
    intro w hw hc
    cases hv : condMet v k with
    | none => rw [splitMet, hv] at hs; exact absurd hs (by simp)
    | some b =>
      rw [splitMet, hv] at hs
      cases hs2 : splitMet k ws with
      | none => rw [hs2] at hs; exact absurd hs (by simp)
      | some mr =>
        rw [hs2] at hs
        cases b with
        | true =>
          simp at hs
          rcases List.mem_cons.mp hw with hweq | hwmem
          · subst hweq
            rw [← hs.1]
            exact List.mem_cons_self _ _
          · rw [← hs.1]
            exact List.mem_cons_of_mem _
              (ih mr.1 mr.2 (by rw [hs2]) w hwmem hc)
        | false =>
          simp at hs
          rcases List.mem_cons.mp hw with hweq | hwmem
          · subst hweq
            rw [hc] at hv
            cases hv
          · rw [← hs.1]
            exact ih mr.1 mr.2 (by rw [hs2]) w hwmem hc

theorem splitMet_met_sound (k : Nat) (ws met rest : List Waiter)
    (hs : splitMet k ws = some (met, rest)) :
    ∀ w ∈ met, w ∈ ws ∧ condMet w k = some true := by
  induction ws generalizing met rest with
  | nil =>
    intro w hw
    rw [splitMet] at hs
    cases hs
    simp at hw
  | cons v ws ih =>
    intro w hw
    cases hv : condMet v k with
    | none => rw [splitMet, hv] at hs; exact absurd hs (by simp)
    | some b =>
      rw [splitMet, hv] at hs
      cases hs2 : splitMet k ws with
      | none => rw [hs2] at hs; exact absurd hs (by simp)
      | some mr =>
        rw [hs2] at hs
        have hrec := ih mr.1 mr.2 (by rw [hs2])
        cases b with
        | true =>
          simp at hs
          rw [← hs.1] at hw
          rcases List.mem_cons.mp hw with hweq | hwmem
          · subst hweq
            exact ⟨List.mem_cons_self _ _, hv⟩
          · obtain ⟨hin, hc⟩ := hrec w hwmem
            exact ⟨List.mem_cons_of_mem _ hin, hc⟩
        | false =>
          simp at hs
          rw [← hs.1] at hw
          obtain ⟨hin, hc⟩ := hrec w hw
          exact ⟨List.mem_cons_of_mem _ hin, hc⟩

/-! ## Lemmas about one iteration -/

theorem iteration_total_ok (k : Nat) (o : FetchOutcome) (arr : List Waiter)
    (s : MState) (h : ∀ w ∈ s.waiters ++ arr, condMet w k ≠ none) :
    ∃ st rel g l, iteration k o arr s = .ok st rel g l := by
  obtain ⟨met, rest, hs⟩ := splitMet_total k (s.waiters ++ arr) h
  simp only [iteration, hs]
  split_ifs <;> exact ⟨_, _, _, _, rfl⟩

theorem iteration_crashed_of_raise (k : Nat) (o : FetchOutcome)
    (arr : List Waiter) (s : MState)
    (h : ∃ w ∈ s.waiters ++ arr, condMet w k = none) :
    iteration k o arr s =
      .crashed
        { waiters := s.waiters ++ arr,
          retries := if arr.isEmpty then s.retries else 0, pollingTask := true }
        (fetchLogs o) := by
  have hs : splitMet k (s.waiters ++ arr) = none :=
    (splitMet_none_iff k (s.waiters ++ arr)).mpr h
  rw [iteration, hs]

theorem iteration_ok_shape (k : Nat) (o : FetchOutcome) (arr : List Waiter)
    (s : MState) (st : MState) (rel : List Nat) (g : Bool) (l : List LogEntry)
    (hok : iteration k o arr s = .ok st rel g l) :
    ∃ met rest, splitMet k (s.waiters ++ arr) = some (met, rest) ∧
      (rel = met.map Waiter.wid ∨
        (g = true ∧ rel = met.map Waiter.wid ++ rest.map Waiter.wid)) := by
  cases hs : splitMet k (s.waiters ++ arr) with
  | none =>
    simp only [iteration, hs] at hok
    exact absurd hok (by simp)
  | some mr =>
    simp only [iteration, hs] at hok
    refine ⟨mr.1, mr.2, rfl, ?_⟩
    split_ifs at hok <;>
      (obtain ⟨-, h2, h3, -⟩ := IterResult.ok.inj hok
       first
       | exact Or.inl h2.symm
       | exact Or.inr ⟨h3.symm, h2.symm⟩)

theorem iteration_released_reason (k : Nat) (o : FetchOutcome)
    (arr : List Waiter) (s : MState) (st : MState) (rel : List Nat) (g : Bool)
    (l : List LogEntry) (hok : iteration k o arr s = .ok st rel g l) :
    ∀ i ∈ rel,
      (∃ w ∈ s.waiters ++ arr, w.wid = i ∧ condMet w k = some true) ∨
        g = true := by
  obtain ⟨met, rest, hs, hshape⟩ := iteration_ok_shape k o arr s st rel g l hok
  intro i hi
  rcases hshape with hrel | ⟨hg, hrel⟩
  · rw [hrel] at hi
    obtain ⟨w, hwmet, hwid⟩ := List.mem_map.mp hi
    obtain ⟨hwin, hc⟩ := splitMet_met_sound k _ met rest hs w hwmet
    exact Or.inl ⟨w, hwin, hwid, hc⟩
  · exact Or.inr hg

theorem iteration_midfetch_arrival (k : Nat) (o : FetchOutcome)
    (arr : List Waiter) (s : MState) (w : Waiter) (hw : w ∈ arr)
    (hsat : condMet w k = some true)
    (htotal : ∀ w2 ∈ s.waiters ++ arr, condMet w2 k ≠ none) :
    ∃ st rel g l, iteration k o arr s = .ok st rel g l ∧ w.wid ∈ rel := by
  obtain ⟨st, rel, g, l, hok⟩ := iteration_total_ok k o arr s htotal
  obtain ⟨met, rest, hs, hshape⟩ := iteration_ok_shape k o arr s st rel g l hok
  have hwmet : w ∈ met :=
    splitMet_mem_met k _ met rest hs w (List.mem_append.mpr (Or.inr hw)) hsat
  have hin : w.wid ∈ met.map Waiter.wid := List.mem_map_of_mem Waiter.wid hwmet
  refine ⟨st, rel, g, l, hok, ?_⟩
  rcases hshape with hrel | ⟨-, hrel⟩
  · rw [hrel]; exact hin
  · rw [hrel]; exact List.mem_append.mpr (Or.inl hin)

theorem iteration_no_progress (k : Nat) (o : FetchOutcome) (ws : List Waiter)
    (r : Nat) (hne : ws ≠ []) (h : ∀ w ∈ ws, condMet w k = some false) :
    iteration k o [] ⟨ws, r, true⟩ =
      if POLL_RETRIES < r + 1 then
        .ok ⟨[], r + 1, true⟩ (ws.map Waiter.wid) true
          (fetchLogs o ++ [.retriesExceeded])
      else .ok ⟨ws, r + 1, true⟩ [] false (fetchLogs o) := by
  have hs : splitMet k (ws ++ []) = some ([], ws) := by
    rw [List.append_nil]
    exact splitMet_all_false k ws h
  rw [iteration, hs]
  simp [hne, List.append_nil]

/-! ## Lemmas about the loop -/

theorem runAux_done_of_empty (outcomes : Nat → FetchOutcome)
    (arrivals : Nat → List Waiter) (fuel k : Nat) (r : Nat) (pt : Bool)
    (rel : List (Nat × Nat)) (logs : List LogEntry) (hfuel : 1 ≤ fuel) :
    runAux outcomes arrivals fuel k ⟨[], r, pt⟩ rel logs =
      .done ⟨[], r, false⟩ k rel logs := by
  cases fuel with
  | zero => omega
  | succ fuel => rw [runAux]; rfl

theorem runAux_exhaustion (outcomes : Nat → FetchOutcome) (ws : List Waiter)
    (hne : ws ≠ []) (h : ∀ w ∈ ws, ∀ k, condMet w k = some false) :
    ∀ d r fuel k rel logs, r + d = POLL_RETRIES + 1 → r ≤ POLL_RETRIES →
      d + 1 ≤ fuel →
      ∃ logs2,
        runAux outcomes (fun _ => []) fuel k ⟨ws, r, true⟩ rel logs =
          .done ⟨[], POLL_RETRIES + 1, false⟩ (k + d)
            (rel ++ ws.map fun w => (w.wid, k + d)) logs2 := by
  intro d
  induction d with
  | zero => intro r fuel k rel logs hd hr hfuel; omega
  | succ d ih =>
    intro r fuel k rel logs hd hr hfuel
    cases fuel with
    | zero => omega
    | succ fuel =>
      have hempty : ws.isEmpty = false := by
        cases ws with
        | nil => exact absurd rfl hne
        | cons a l => rfl
      have hiter := iteration_no_progress (k + 1) (outcomes (k + 1)) ws r hne
        (fun w hw => h w hw (k + 1))
      by_cases hlast : POLL_RETRIES < r + 1
      · have hd0 : d = 0 := by omega
        subst hd0
        rw [if_pos hlast] at hiter
        refine ⟨logs ++ (fetchLogs (outcomes (k + 1)) ++ [.retriesExceeded]), ?_⟩
        rw [runAux]
        simp only [hempty, Bool.false_eq_true, if_false, hiter]
        rw [runAux_done_of_empty _ _ fuel (k + 1) (r + 1) true _ _ (by omega)]
        have hr6 : r + 1 = POLL_RETRIES + 1 := by omega
        rw [hr6]
        simp [List.map_map, Function.comp]
      · rw [if_neg hlast] at hiter
        obtain ⟨logs2, hres⟩ := ih (r + 1) fuel (k + 1) rel
          (logs ++ fetchLogs (outcomes (k + 1))) (by omega) (by omega) (by omega)
        refine ⟨logs2, ?_⟩
        rw [runAux]
        simp only [hempty, Bool.false_eq_true, if_false, hiter, List.map_nil,
          List.append_nil]
        rw [hres]
        have harith : k + 1 + d = k + (d + 1) := by omega
        rw [harith]

theorem runAux_fuel_mono (outcomes : Nat → FetchOutcome)
    (arrivals : Nat → List Waiter) :
    ∀ fuel m k s rel logs f n r l,
      runAux outcomes arrivals fuel k s rel logs = .done f n r l →
      runAux outcomes arrivals (fuel + m) k s rel logs = .done f n r l := by
  intro fuel
  induction fuel with
  | zero => intro m k s rel logs f n r l hres; exact absurd hres (by simp [runAux])
  | succ fuel ih =>
    intro m k s rel logs f n r l hres
    rw [runAux] at hres
    have : fuel + 1 + m = (fuel + m) + 1 := by omega
    rw [this, runAux]
    by_cases hemp : s.waiters.isEmpty
    · simp only [hemp, if_true] at hres ⊢
      exact hres
    · simp only [hemp, Bool.false_eq_true, if_false] at hres ⊢
      cases hit : iteration (k + 1) (outcomes (k + 1)) (arrivals (k + 1)) s with
      | crashed cs ilogs => rw [hit] at hres; exact absurd hres (by simp)
      | ok st irel g ilogs =>
        rw [hit] at hres
        exact ih m (k + 1) st _ _ f n r l hres

/-! ## Lemmas about registration -/

theorem registerMany_busy (ws : List Waiter) :
    ∀ s : MState, s.pollingTask = true →
      (registerMany ws s).2 = 0 ∧ (registerMany ws s).1.pollingTask = true := by
  induction ws with
  | nil => intro s hs; exact ⟨rfl, hs⟩
  | cons w ws ih =>
    intro s hs
    have h2 := ih { waiters := s.waiters ++ [w], retries := 0, pollingTask := true }
      rfl
    simp [registerMany, register, hs, h2.1, h2.2]

theorem registerMany_spawn_le_one (ws : List Waiter) (s : MState) :
    (registerMany ws s).2 ≤ 1 := by
  cases ws with
  | nil => simp [registerMany]
  | cons w ws =>
    rw [registerMany]
    have hbusy := registerMany_busy ws
      { waiters := s.waiters ++ [w], retries := 0, pollingTask := true } rfl
    simp only [register]
    simp only [hbusy.1]
    split <;> omega

theorem registerMany_spawn_idle (ws : List Waiter) (s : MState)
    (hidle : s.pollingTask = false) (hne : ws ≠ []) :
    (registerMany ws s).2 = 1 := by
  cases ws with
  | nil => exact absurd rfl hne
  | cons w ws =>
    rw [registerMany]
    have hbusy := registerMany_busy ws
      { waiters := s.waiters ++ [w], retries := 0, pollingTask := true } rfl
    simp [register, hidle, hbusy.1]

theorem registerMany_state (ws : List Waiter) :
    ∀ s : MState, (registerMany ws s).1.waiters = s.waiters ++ ws ∧
      (ws ≠ [] → (registerMany ws s).1.retries = 0 ∧
        (registerMany ws s).1.pollingTask = true) := by
  induction ws with
  | nil => intro s; simp [registerMany]
  | cons w ws ih =>
    intro s
    rw [registerMany]
    have h2 := ih { waiters := s.waiters ++ [w], retries := 0, pollingTask := true }
    simp only [register]
    constructor
    · rw [h2.1]
      simp
    · intro _
      cases hws : ws with
      | nil =>
        subst hws
        simp [registerMany]
      | cons v vs =>
        have := h2.2 (by simp [hws])
        rw [← hws]
        exact this

/-! ## Task lifecycle invariant -/

theorem taskStep_inv (s t : TaskState) (ev : PmEvent) (hinv : TaskInv s)
    (hstep : taskStep s ev = some t) : TaskInv t := by
  obtain ⟨h1, h2⟩ := hinv
  cases ev with
  | reg =>
    rw [taskStep] at hstep
    injection hstep with hstep
    subst hstep
    cases hb : s.handle with
    | true =>
      rw [if_pos rfl]
      exact ⟨h1, h2⟩
    | false =>
      rw [if_neg (by simp)]
      have h0 := h2 hb
      refine ⟨?_, fun hf => ?_⟩
      · show s.live + 1 ≤ 1
        omega
      · exact absurd hf (by simp)
  | finish =>
    rw [taskStep] at hstep
    split at hstep
    · exact absurd hstep (by simp)
    · injection hstep with hstep
      subst hstep
      refine ⟨?_, fun _ => ?_⟩
      · show s.live - 1 ≤ 1
        omega
      · show s.live - 1 = 0
        omega
  | crash =>
    rw [taskStep] at hstep
    split at hstep
    · exact absurd hstep (by simp)
    · injection hstep with hstep
      subst hstep
      refine ⟨?_, fun hf => ?_⟩
      · show s.live - 1 ≤ 1
        omega
      · show s.live - 1 = 0
        have := h2 hf
        omega

theorem runEventsFrom_none (evs : List PmEvent) :
    List.foldl (fun acc ev => acc.bind fun t => taskStep t ev)
      (none : Option TaskState) evs = none := by
  induction evs with
  | nil => rfl
  | cons ev evs ih => simp only [List.foldl, Option.bind]; exact ih

theorem runEventsFrom_inv (evs : List PmEvent) :
    ∀ s t : TaskState, TaskInv s → runEventsFrom evs s = some t → TaskInv t := by
  induction evs with
  | nil =>
    intro s t hinv hrun
    rw [runEventsFrom] at hrun
    simp only [List.foldl] at hrun
    cases hrun
    exact hinv
  | cons ev evs ih =>
    intro s t hinv hrun
    rw [runEventsFrom] at hrun
    simp only [List.foldl] at hrun
    cases hstep : taskStep s ev with
    | none =>
      rw [show (some s).bind (fun u => taskStep u ev) = none by
        simp [Option.bind, hstep]] at hrun
      rw [runEventsFrom_none evs] at hrun
      cases hrun
    | some s2 =>
      rw [show (some s).bind (fun u => taskStep u ev) = some s2 by
        simp [Option.bind, hstep]] at hrun
      exact ih s2 t (taskStep_inv s s2 ev hinv hstep) hrun

theorem runEvents_inv (evs : List PmEvent) (t : TaskState)
    (hrun : runEvents evs = some t) : t.live ≤ 1 :=
  (runEventsFrom_inv evs initTasks t ⟨by decide, fun _ => rfl⟩ hrun).1

/-! ## Outcome independence -/

theorem iteration_core_indep (k : Nat) (o1 o2 : FetchOutcome)
    (arr : List Waiter) (s : MState) :
    (iteration k o1 arr s).core = (iteration k o2 arr s).core := by
  cases hs : splitMet k (s.waiters ++ arr) with
  | none => simp [iteration, hs, IterResult.core]
  | some mr =>
    obtain ⟨met, rest⟩ := mr
    simp only [iteration, hs]
    split_ifs <;> simp [IterResult.core]

theorem runAux_core_indep (o1 o2 : Nat → FetchOutcome)
    (arrivals : Nat → List Waiter) :
    ∀ fuel k s rel logs1 logs2,
      (runAux o1 arrivals fuel k s rel logs1).core =
        (runAux o2 arrivals fuel k s rel logs2).core := by
  intro fuel
  induction fuel with
  | zero => intro k s rel logs1 logs2; rfl
  | succ fuel ih =>
    intro k s rel logs1 logs2
    rw [runAux, runAux]
    by_cases hemp : s.waiters.isEmpty
    · simp only [hemp, if_true]; rfl
    · simp only [hemp, Bool.false_eq_true, if_false]
      have hcore := iteration_core_indep (k + 1) (o1 (k + 1)) (o2 (k + 1))
        (arrivals (k + 1)) s
      cases h1 : iteration (k + 1) (o1 (k + 1)) (arrivals (k + 1)) s with
      | crashed cs1 il1 =>
        cases h2 : iteration (k + 1) (o2 (k + 1)) (arrivals (k + 1)) s with
        | crashed cs2 il2 =>
          rw [h1, h2] at hcore
          simp only [IterResult.core, Prod.mk.injEq] at hcore
          simp [RunResult.core, hcore.2.1]
        | ok st2 irel2 g2 il2 =>
          rw [h1, h2] at hcore
          simp [IterResult.core] at hcore
      | ok st1 irel1 g1 il1 =>
        cases h2 : iteration (k + 1) (o2 (k + 1)) (arrivals (k + 1)) s with
        | crashed cs2 il2 =>
          rw [h1, h2] at hcore
          simp [IterResult.core] at hcore
        | ok st2 irel2 g2 il2 =>
          rw [h1, h2] at hcore
          simp only [IterResult.core, Prod.mk.injEq] at hcore
          rw [hcore.2.1, hcore.2.2.1]
          exact ih (k + 1) st2 _ _ _

/-! ## Crash propagation -/

theorem runAux_crash_step (outcomes : Nat → FetchOutcome)
    (arrivals : Nat → List Waiter) (fuel k : Nat) (s : MState)
    (rel : List (Nat × Nat)) (logs : List LogEntry) (cs : MState)
    (ilogs : List LogEntry) (hfuel : 1 ≤ fuel) (hne : ¬s.waiters.isEmpty)
    (hiter : iteration (k + 1) (outcomes (k + 1)) (arrivals (k + 1)) s =
      .crashed cs ilogs) :
    runAux outcomes arrivals fuel k s rel logs =
      .crashed cs (k + 1) rel (logs ++ ilogs) := by
  cases fuel with
  | zero => omega
  | succ fuel =>
    rw [runAux]
    simp only [hne, Bool.false_eq_true, if_false, hiter]

/-! ## Partition and no-arrival iteration lemmas -/

theorem splitMet_partition (k : Nat) (ws met rest : List Waiter)
    (hs : splitMet k ws = some (met, rest)) :
    ∀ w ∈ ws, w ∈ met ∨ w ∈ rest := by
  induction ws generalizing met rest with
  | nil => intro w hw; simp at hw
  | cons v ws ih =>
    intro w hw
    cases hv : condMet v k with
    | none => rw [splitMet, hv] at hs; exact absurd hs (by simp)
    | some b =>
      rw [splitMet, hv] at hs
      cases hs2 : splitMet k ws with
      | none => rw [hs2] at hs; exact absurd hs (by simp)
      | some mr =>
        rw [hs2] at hs
        have hrec := ih mr.1 mr.2 (by rw [hs2])
        cases b with
        | true =>
          simp at hs
          rcases List.mem_cons.mp hw with hweq | hwmem
          · subst hweq
            exact Or.inl (by rw [← hs.1]; exact List.mem_cons_self _ _)
          · rcases hrec w hwmem with hm | hr
            · exact Or.inl (by rw [← hs.1]; exact List.mem_cons_of_mem _ hm)
            · exact Or.inr (by rw [← hs.2]; exact hr)
        | false =>
          simp at hs
          rcases List.mem_cons.mp hw with hweq | hwmem
          · subst hweq
            exact Or.inr (by rw [← hs.2]; exact List.mem_cons_self _ _)
          · rcases hrec w hwmem with hm | hr
            · exact Or.inl (by rw [← hs.1]; exact hm)
            · exact Or.inr (by rw [← hs.2]; exact List.mem_cons_of_mem _ hr)

theorem splitMet_rest_sound (k : Nat) (ws met rest : List Waiter)
    (hs : splitMet k ws = some (met, rest)) :
    ∀ w ∈ rest, w ∈ ws := by
  induction ws generalizing met rest with
  | nil =>
    intro w hw
    rw [splitMet] at hs
    cases hs
    simp at hw
  | cons v ws ih =>
    intro w hw
    cases hv : condMet v k with
    | none => rw [splitMet, hv] at hs; exact absurd hs (by simp)
    | some b =>
      rw [splitMet, hv] at hs
      cases hs2 : splitMet k ws with
      | none => rw [hs2] at hs; exact absurd hs (by simp)
      | some mr =>
        rw [hs2] at hs
        have hrec := ih mr.1 mr.2 (by rw [hs2])
        cases b with
        | true =>
          simp at hs
          rw [← hs.2] at hw
          exact List.mem_cons_of_mem _ (hrec w hw)
        | false =>
          simp at hs
          rw [← hs.2] at hw
          rcases List.mem_cons.mp hw with hweq | hwmem
          · subst hweq
            exact List.mem_cons_self _ _
          · exact List.mem_cons_of_mem _ (hrec w hwmem)

theorem iteration_noarr (k : Nat) (o : FetchOutcome) (s : MState)
    (met rest : List Waiter) (hs : splitMet k s.waiters = some (met, rest)) :
    iteration k o [] s =
      if rest.isEmpty then
        .ok ⟨rest, s.retries, true⟩ (met.map Waiter.wid) false (fetchLogs o)
      else if POLL_RETRIES < s.retries + 1 then
        .ok ⟨[], s.retries + 1, true⟩
          (met.map Waiter.wid ++ rest.map Waiter.wid) true
          (fetchLogs o ++ [.retriesExceeded])
      else
        .ok ⟨rest, s.retries + 1, true⟩ (met.map Waiter.wid) false
          (fetchLogs o) := by
  simp only [iteration, List.append_nil, hs, List.isEmpty_nil, if_true,
    beq_self_eq_true]

theorem runAux_total_done (outcomes : Nat → FetchOutcome) :
    ∀ (fuel : Nat) (s : MState) (k : Nat) (rel : List (Nat × Nat))
      (logs : List LogEntry),
      (∀ w ∈ s.waiters, ∀ k2, condMet w k2 ≠ none) →
      POLL_RETRIES + 1 - s.retries + 2 ≤ fuel →
      ∃ f n r2 l2,
        runAux outcomes (fun _ => []) fuel k s rel logs = .done f n r2 l2 ∧
          (∀ x ∈ rel, x ∈ r2) ∧
          (∀ w ∈ s.waiters, ∃ j, (w.wid, j) ∈ r2) := by
  intro fuel
  induction fuel with
  | zero => intro s k rel logs htotal hfuel; omega
  | succ fuel ih =>
    intro s k rel logs htotal hfuel
    by_cases hemp : s.waiters.isEmpty
    · rw [runAux]
      simp only [hemp, if_true]
      refine ⟨_, _, rel, logs, rfl, fun x hx => hx, fun w hw => ?_⟩
      rw [List.isEmpty_iff.mp hemp] at hw
      simp at hw
    · obtain ⟨met, rest, hs⟩ := splitMet_total (k + 1) s.waiters
        (fun w hw => htotal w hw (k + 1))
      have hiter := iteration_noarr (k + 1) (outcomes (k + 1)) s met rest hs
      have hpart := splitMet_partition (k + 1) s.waiters met rest hs
      rw [runAux]
      simp only [hemp, Bool.false_eq_true, if_false]
      by_cases hrest : rest.isEmpty
      · have hrestnil := List.isEmpty_iff.mp hrest
        subst hrestnil
        rw [if_pos hrest] at hiter
        simp only [hiter]
        rw [runAux_done_of_empty outcomes (fun _ => []) fuel (k + 1) s.retries
          true _ _ (by omega)]
        refine ⟨_, _, _, _, rfl, fun x hx => List.mem_append.mpr (Or.inl hx),
          fun w hw => ?_⟩
        rcases hpart w hw with hm | hr
        · refine ⟨k + 1, List.mem_append.mpr (Or.inr ?_)⟩
          simp only [List.map_map, List.mem_map, Function.comp]
          exact ⟨w, hm, rfl⟩
        · simp at hr
      · rw [if_neg hrest] at hiter
        by_cases hgive : POLL_RETRIES < s.retries + 1
        · rw [if_pos hgive] at hiter
          simp only [hiter]
          rw [runAux_done_of_empty outcomes (fun _ => []) fuel (k + 1)
            (s.retries + 1) true _ _ (by omega)]
          refine ⟨_, _, _, _, rfl, fun x hx => List.mem_append.mpr (Or.inl hx),
            fun w hw => ?_⟩
          rcases hpart w hw with hm | hr
          · refine ⟨k + 1, List.mem_append.mpr (Or.inr ?_)⟩
            simp only [List.map_append, List.map_map, List.mem_append,
              List.mem_map, Function.comp]
            exact Or.inl ⟨w, hm, rfl⟩
          · refine ⟨k + 1, List.mem_append.mpr (Or.inr ?_)⟩
            simp only [List.map_append, List.map_map, List.mem_append,
              List.mem_map, Function.comp]
            exact Or.inr ⟨w, hr, rfl⟩
        · rw [if_neg hgive] at hiter
          simp only [hiter]
          obtain ⟨f, n, r2, l2, hrun, hmono, hrel⟩ :=
            ih ⟨rest, s.retries + 1, true⟩ (k + 1)
              (rel ++ (met.map Waiter.wid).map fun wid => (wid, k + 1))
              (logs ++ fetchLogs (outcomes (k + 1)))
              (fun w hw k2 => htotal w
                (splitMet_rest_sound (k + 1) s.waiters met rest hs w hw) k2)
              (by
                show POLL_RETRIES + 1 - (s.retries + 1) + 2 ≤ fuel
                omega)
          refine ⟨f, n, r2, l2, hrun,
            fun x hx => hmono x (List.mem_append.mpr (Or.inl hx)),
            fun w hw => ?_⟩
          rcases hpart w hw with hm | hr
          · refine ⟨k + 1, hmono _ (List.mem_append.mpr (Or.inr ?_))⟩
            simp only [List.map_map, List.mem_map, Function.comp]
            exact ⟨w, hm, rfl⟩
          · exact hrel w hr

/-! ## Claim theorems -/

/-- C1: for a `wait_for_condition` call on an idle manager whose predicate never
returns true, with no other waiter ever registered and every fetch attempt
completing by a caught outcome (success, timeout or error) without removing any
waiter, the fetch function is invoked exactly `POLL_RETRIES + 1 = 6` times
(one initial attempt plus five retries); the waiter is then released by the
give-up branch after the sixth fetch and the loop ends with the task handle
cleared. -/
theorem C1_retry_bound (outcomes : Nat → FetchOutcome) (p : Nat → Option Bool)
    (wid : Nat) (fuel : Nat) (hp : ∀ k, p k = some false) (hfuel : 7 ≤ fuel) :
    POLL_RETRIES + 1 = 6 ∧
      ∃ logs,
        run outcomes (fun _ => []) fuel
            (register ⟨wid, some p⟩ ⟨[], 0, false⟩).1 =
          .done ⟨[], 6, false⟩ 6 [(wid, 6)] logs := by
  refine ⟨rfl, ?_⟩
  have hreg : (register ⟨wid, some p⟩ ⟨[], 0, false⟩).1 =
      ⟨[⟨wid, some p⟩], 0, true⟩ := by
    simp [register]
  rw [run, hreg]
  obtain ⟨logs2, hres⟩ := runAux_exhaustion outcomes [⟨wid, some p⟩] (by simp)
    (fun w hw k => by
      rcases List.mem_singleton.mp hw with rfl
      simp [condMet, hp k])
    6 0 fuel 0 [] [] (by decide) (by decide) (by omega)
  exact ⟨logs2, hres⟩

/-- Witness for C1 at the concrete never-true predicate `alwaysFalse`. -/
theorem C1_retry_bound_witness :
    (∀ k, alwaysFalse k = some false) ∧ 7 ≤ 7 ∧
      (POLL_RETRIES + 1 = 6 ∧
        ∃ logs,
          run (fun _ => .ok) (fun _ => []) 7
              (register ⟨0, some alwaysFalse⟩ ⟨[], 0, false⟩).1 =
            .done ⟨[], 6, false⟩ 6 [(0, 6)] logs) :=
  ⟨fun _ => rfl, le_refl 7,
    C1_retry_bound (fun _ => .ok) alwaysFalse 0 7 (fun _ => rfl) (le_refl 7)⟩

/-- C2: (i) along any replayable sequence of task-lifecycle events at most one
polling task is ever alive; (ii) a batch of N ≥ 1 `wait_for_condition` calls
arriving before any fetch completes creates exactly one task when the manager
is idle, and no batch ever creates more than one; (iii) the batch then shares
one fetch per iteration: with N conditioned never-true waiters the loop
performs exactly `POLL_RETRIES + 1` fetches in total, independent of N. -/
theorem C2_single_flight :
    (∀ (evs : List PmEvent) (t : TaskState), runEvents evs = some t →
      t.live ≤ 1)
  ∧ (∀ (ws : List Waiter) (s : MState), s.pollingTask = false → ws ≠ [] →
      (registerMany ws s).2 = 1)
  ∧ (∀ (ws : List Waiter) (s : MState), (registerMany ws s).2 ≤ 1)
  ∧ (∀ (ws : List Waiter) (outcomes : Nat → FetchOutcome) (fuel : Nat),
      ws ≠ [] → (∀ w ∈ ws, ∀ k, condMet w k = some false) → 7 ≤ fuel →
      ∃ logs,
        run outcomes (fun _ => []) fuel (registerMany ws ⟨[], 0, false⟩).1 =
          .done ⟨[], POLL_RETRIES + 1, false⟩ (POLL_RETRIES + 1)
            (ws.map fun w => (w.wid, POLL_RETRIES + 1)) logs) := by
  refine ⟨runEvents_inv, fun ws s h1 h2 => registerMany_spawn_idle ws s h1 h2,
    fun ws s => registerMany_spawn_le_one ws s, ?_⟩
  intro ws outcomes fuel hne hconds hfuel
  have hstate : (registerMany ws ⟨[], 0, false⟩).1 = ⟨ws, 0, true⟩ := by
    obtain ⟨hw, hrest⟩ := registerMany_state ws ⟨[], 0, false⟩
    obtain ⟨hr, hp⟩ := hrest hne
    rcases hS : (registerMany ws ⟨[], 0, false⟩).1 with ⟨a, b, c⟩
    rw [hS] at hw hr hp
    simp only [List.nil_append] at hw
    simp only at hr hp
    rw [hw, hr, hp]
  rw [run, hstate]
  obtain ⟨logs2, hres⟩ := runAux_exhaustion outcomes ws hne hconds
    6 0 fuel 0 [] [] (by decide) (by decide) (by omega)
  refine ⟨logs2, ?_⟩
  rw [hres]
  simp [POLL_RETRIES]

/-- Witness for C2 at two concrete never-true waiters. -/
theorem C2_single_flight_witness :
    (runEvents [PmEvent.reg, PmEvent.reg, PmEvent.finish] =
      some { handle := false, live := 0 }) ∧
    ({ handle := false, live := 0 } : TaskState).live ≤ 1 ∧
    ((⟨[], 0, false⟩ : MState).pollingTask = false ∧
      ([wFalseA, wFalseB] : List Waiter) ≠ [] ∧
      (registerMany [wFalseA, wFalseB] ⟨[], 0, false⟩).2 = 1) ∧
    ∃ logs,
      run (fun _ => .ok) (fun _ => []) 7
          (registerMany [wFalseA, wFalseB] ⟨[], 0, false⟩).1 =
        .done ⟨[], POLL_RETRIES + 1, false⟩ (POLL_RETRIES + 1)
          (List.map (fun w => (w.wid, POLL_RETRIES + 1)) [wFalseA, wFalseB])
          logs :=
  ⟨rfl, C2_single_flight.1 [PmEvent.reg, PmEvent.reg, PmEvent.finish] _ rfl,
    ⟨rfl, by simp,
      C2_single_flight.2.1 [wFalseA, wFalseB] ⟨[], 0, false⟩ rfl (by simp)⟩,
    C2_single_flight.2.2.2 [wFalseA, wFalseB] (fun _ => .ok) 7 (by simp)
      (by
        intro w hw k
        simp only [List.mem_cons, List.not_mem_nil, or_false] at hw
        rcases hw with rfl | rfl <;> rfl)
      (le_refl 7)⟩

/-- C3 counterexample: with waiter 1 (predicate newly true on fetch 1) and
waiter 2 (predicate false) pending and the counter at 0, the iteration releases
waiter 1 yet sets the counter to 1, not 0; and from counter value 5 the next
no-progress iteration drives the counter to 6, outside `[0, POLL_RETRIES]`. -/
theorem C3_counterexample :
    (iteration 1 .ok [] ⟨[wTrue1, wFalse2], 0, true⟩ =
        .ok ⟨[wFalse2], 1, true⟩ [1] false []) ∧
    (1 : Nat) ≠ 0 ∧
    (iteration 1 .ok [] ⟨[wFalse2], 5, true⟩ =
        .ok ⟨[], 6, true⟩ [2] true [.retriesExceeded]) ∧
    ¬6 ≤ POLL_RETRIES :=
  ⟨rfl, by decide, rfl, by decide⟩

/-- C3 (amended): the retry counter is set to 0 by every `wait_for_condition`
registration, and that is its only reset: on an iteration with no mid-fetch
registrations after which waiters remain, the counter increments by exactly one
even when some predicate newly evaluated true; starting within the budget it
never exceeds `POLL_RETRIES + 1`, and it reaches `POLL_RETRIES + 1` exactly on
the iteration that gives up (which also clears the pending set). -/
theorem C3_retry_counter_dynamics :
    (∀ (w : Waiter) (s : MState), ((register w s).1).retries = 0)
  ∧ (∀ (k : Nat) (o : FetchOutcome) (s : MState) st rel g l,
      iteration k o [] s = .ok st rel g l → st.waiters ≠ [] →
      st.retries = s.retries + 1)
  ∧ (∀ (k : Nat) (o : FetchOutcome) (arr : List Waiter) (s : MState) st rel g l,
      s.retries ≤ POLL_RETRIES → iteration k o arr s = .ok st rel g l →
      st.retries ≤ POLL_RETRIES + 1)
  ∧ (∀ (k : Nat) (o : FetchOutcome) (arr : List Waiter) (s : MState) st rel l,
      s.retries ≤ POLL_RETRIES → iteration k o arr s = .ok st rel true l →
      st.retries = POLL_RETRIES + 1 ∧ st.waiters = []) := by
  refine ⟨fun w s => rfl, ?_, ?_, ?_⟩
  · intro k o s st rel g l hok hne
    cases hsp : splitMet k s.waiters with
    | none =>
      rw [iteration_crashed_of_raise k o [] s] at hok
      · exact absurd hok (by simp)
      · rw [List.append_nil]
        exact (splitMet_none_iff k s.waiters).mp hsp
    | some mr =>
      obtain ⟨met, rest⟩ := mr
      rw [iteration_noarr k o s met rest hsp] at hok
      split_ifs at hok with h1 h2
      · obtain ⟨hst, -, -, -⟩ := IterResult.ok.inj hok
        rw [← hst] at hne
        exact absurd (List.isEmpty_iff.mp h1) hne
      · obtain ⟨hst, -, -, -⟩ := IterResult.ok.inj hok
        rw [← hst] at hne
        simp at hne
      · obtain ⟨hst, -, -, -⟩ := IterResult.ok.inj hok
        rw [← hst]
  · intro k o arr s st rel g l hr hok
    cases hsp : splitMet k (s.waiters ++ arr) with
    | none =>
      rw [iteration_crashed_of_raise k o arr s
        ((splitMet_none_iff k (s.waiters ++ arr)).mp hsp)] at hok
      exact absurd hok (by simp)
    | some mr =>
      obtain ⟨met, rest⟩ := mr
      simp only [iteration, hsp] at hok
      split_ifs at hok <;>
        (obtain ⟨hst, -, -, -⟩ := IterResult.ok.inj hok
         rw [← hst]
         dsimp only
         omega)
  · intro k o arr s st rel l hr hok
    cases hsp : splitMet k (s.waiters ++ arr) with
    | none =>
      rw [iteration_crashed_of_raise k o arr s
        ((splitMet_none_iff k (s.waiters ++ arr)).mp hsp)] at hok
      exact absurd hok (by simp)
    | some mr =>
      obtain ⟨met, rest⟩ := mr
      simp only [iteration, hsp] at hok
      split_ifs at hok <;>
        (obtain ⟨hst, -, hg, -⟩ := IterResult.ok.inj hok
         first
         | exact Bool.noConfusion hg
         | exact ⟨by rw [← hst]; dsimp only; omega, by rw [← hst]⟩)

/-- Witness for C3 (amended) at concrete inputs. -/
theorem C3_retry_counter_dynamics_witness :
    ((register wNone2 ⟨[], 3, true⟩).1).retries = 0 ∧
    (iteration 1 .ok [] ⟨[wTrue1, wFalse2], 2, true⟩ =
      .ok ⟨[wFalse2], 3, true⟩ [1] false []) ∧
    ((⟨[wFalse2], 3, true⟩ : MState).waiters ≠ []) ∧
    ((⟨[wFalse2], 3, true⟩ : MState).retries =
      (⟨[wTrue1, wFalse2], 2, true⟩ : MState).retries + 1) :=
  ⟨C3_retry_counter_dynamics.1 wNone2 ⟨[], 3, true⟩, rfl, by simp,
    C3_retry_counter_dynamics.2.1 1 .ok ⟨[wTrue1, wFalse2], 2, true⟩
      ⟨[wFalse2], 3, true⟩ [1] false [] rfl (by simp)⟩

/-- C4 counterexample: waiter 1 (never true) is pending when an unconditioned
`wait_for_update` caller (waiter 2) registers while fetch 1 is in flight; the
released list records `(2, 1)`: waiter 2 is resolved by the in-flight fetch, at
iteration 1, without any fetch begun after its registration. -/
theorem C4_counterexample :
    run (fun _ => .ok) (fun k => if k = 1 then [wNone2] else []) 7
        ⟨[wFalseA], 0, true⟩ =
      .done ⟨[], 6, false⟩ 6 [(2, 1), (0, 6)] [.retriesExceeded] := by
  rfl

/-- C4 (amended): a request registered while a fetch is in flight is folded
into THAT iteration's evaluation, immediately after the in-flight fetch
completes: any mid-fetch arrival whose condition evaluates true at that fetch
(in particular every unconditioned `wait_for_update` arrival) is released in
the same iteration, with no fresh fetch after its registration, provided no
condition raises. -/
theorem C4_midfetch_same_iteration :
    (∀ (k : Nat) (o : FetchOutcome) (arr : List Waiter) (s : MState)
        (w : Waiter), w ∈ arr → condMet w k = some true →
      (∀ w2 ∈ s.waiters ++ arr, condMet w2 k ≠ none) →
      ∃ st rel g l, iteration k o arr s = .ok st rel g l ∧ w.wid ∈ rel)
  ∧ (∀ (k : Nat) (o : FetchOutcome) (arr : List Waiter) (s : MState)
        (w : Waiter), w ∈ arr → w.cond = none →
      (∀ w2 ∈ s.waiters ++ arr, condMet w2 k ≠ none) →
      ∃ st rel g l, iteration k o arr s = .ok st rel g l ∧ w.wid ∈ rel) := by
  refine ⟨fun k o arr s w hw hsat htotal =>
    iteration_midfetch_arrival k o arr s w hw hsat htotal,
    fun k o arr s w hw hcond htotal => ?_⟩
  refine iteration_midfetch_arrival k o arr s w hw ?_ htotal
  rw [condMet, hcond]

/-- Witness for C4 (amended): the concrete mid-fetch `wait_for_update` arrival
of the counterexample is released by the in-flight iteration. -/
theorem C4_midfetch_same_iteration_witness :
    (wNone2 ∈ [wNone2]) ∧ wNone2.cond = none ∧
    (∀ w2 ∈ (⟨[wFalseA], 0, true⟩ : MState).waiters ++ [wNone2],
      condMet w2 1 ≠ none) ∧
    ∃ st rel g l,
      iteration 1 .ok [wNone2] ⟨[wFalseA], 0, true⟩ = .ok st rel g l ∧
        wNone2.wid ∈ rel :=
  ⟨List.mem_singleton.mpr rfl, rfl,
    by
      intro w2 hw2
      simp only [List.cons_append, List.nil_append, List.mem_cons,
        List.not_mem_nil, or_false] at hw2
      rcases hw2 with rfl | rfl <;> simp [condMet, wFalseA, wNone2, alwaysFalse],
    C4_midfetch_same_iteration.2 1 .ok [wNone2] ⟨[wFalseA], 0, true⟩ wNone2
      (List.mem_singleton.mpr rfl) rfl
      (by
        intro w2 hw2
        simp only [List.cons_append, List.nil_append, List.mem_cons,
          List.not_mem_nil, or_false] at hw2
        rcases hw2 with rfl | rfl <;> simp [condMet, wFalseA, wNone2, alwaysFalse])⟩

/-- C5: exceptions and timeouts from the fetch function are confined to the
loop: (i) the observable run result — released waiters, final state, fetch
count, constructor — is identical for any two fetch-outcome sequences, which
can differ only in what is logged; (ii) when no caller condition raises, an
iteration never ends the task abnormally, whatever the fetch outcome (this
covers the Device fetch raising because the store returned no snapshot, which
arrives as an `err` outcome); (iii) a waiter id is released only if its
condition evaluated true (absent conditions count as satisfied) or through the
give-up branch; (iv) with raise-free conditions and no further arrivals the
loop always reaches normal completion and releases every pending waiter, so
`wait_for_condition` returns normally. -/
theorem C5_fetch_errors_contained :
    (∀ (o1 o2 : Nat → FetchOutcome) (arrivals : Nat → List Waiter)
        (fuel k : Nat) (s : MState) (rel : List (Nat × Nat))
        (logs1 logs2 : List LogEntry),
      (runAux o1 arrivals fuel k s rel logs1).core =
        (runAux o2 arrivals fuel k s rel logs2).core)
  ∧ (∀ (k : Nat) (o : FetchOutcome) (arr : List Waiter) (s : MState),
      (∀ w ∈ s.waiters ++ arr, condMet w k ≠ none) →
      ∃ st rel g l, iteration k o arr s = .ok st rel g l)
  ∧ (∀ (k : Nat) (o : FetchOutcome) (arr : List Waiter) (s : MState)
        (st : MState) (rel : List Nat) (g : Bool) (l : List LogEntry),
      iteration k o arr s = .ok st rel g l →
      ∀ i ∈ rel,
        (∃ w ∈ s.waiters ++ arr, w.wid = i ∧ condMet w k = some true) ∨
          g = true)
  ∧ (∀ (outcomes : Nat → FetchOutcome) (fuel : Nat) (s : MState) (k : Nat)
        (rel : List (Nat × Nat)) (logs : List LogEntry),
      (∀ w ∈ s.waiters, ∀ k2, condMet w k2 ≠ none) →
      POLL_RETRIES + 1 - s.retries + 2 ≤ fuel →
      ∃ f n r2 l2,
        runAux outcomes (fun _ => []) fuel k s rel logs = .done f n r2 l2 ∧
          (∀ x ∈ rel, x ∈ r2) ∧
          (∀ w ∈ s.waiters, ∃ j, (w.wid, j) ∈ r2)) :=
  ⟨fun o1 o2 arrivals fuel k s rel logs1 logs2 =>
      runAux_core_indep o1 o2 arrivals fuel k s rel logs1 logs2,
    iteration_total_ok, iteration_released_reason,
    fun outcomes fuel s k rel logs h1 h2 =>
      runAux_total_done outcomes fuel s k rel logs h1 h2⟩

/-- Witness for C5: a concrete never-true waiter under an always-timeout fetch
reaches the same observable result as under an always-successful fetch, and the
run completes normally, releasing the waiter. -/
theorem C5_fetch_errors_contained_witness :
    ((runAux (fun _ => .timeout) (fun _ => []) 8 0 ⟨[wFalseA], 0, true⟩ []
        []).core =
      (runAux (fun _ => .ok) (fun _ => []) 8 0 ⟨[wFalseA], 0, true⟩ []
        []).core) ∧
    (∀ w ∈ (⟨[wFalseA], 0, true⟩ : MState).waiters, ∀ k2,
      condMet w k2 ≠ none) ∧
    POLL_RETRIES + 1 - (⟨[wFalseA], 0, true⟩ : MState).retries + 2 ≤ 8 ∧
    ∃ f n r2 l2,
      runAux (fun _ => .err "no document") (fun _ => []) 8 0
          ⟨[wFalseA], 0, true⟩ [] [] = .done f n r2 l2 ∧
        (∀ x ∈ ([] : List (Nat × Nat)), x ∈ r2) ∧
        (∀ w ∈ (⟨[wFalseA], 0, true⟩ : MState).waiters, ∃ j, (w.wid, j) ∈ r2) :=
  ⟨C5_fetch_errors_contained.1 (fun _ => .timeout) (fun _ => .ok)
      (fun _ => []) 8 0 ⟨[wFalseA], 0, true⟩ [] [] [],
    by
      intro w hw k2
      simp only [List.mem_singleton] at hw
      subst hw
      simp [condMet, wFalseA, alwaysFalse],
    by decide,
    C5_fetch_errors_contained.2.2.2 (fun _ => .err "no document") 8
      ⟨[wFalseA], 0, true⟩ 0 [] []
      (by
        intro w hw k2
        simp only [List.mem_singleton] at hw
        subst hw
        simp [condMet, wFalseA, alwaysFalse])
      (by decide)⟩

/-- C6: `wait_for_update` is exactly `wait_for_condition` with the default
`None` condition, and on an idle manager its waiter is released after exactly
one invocation of the fetch function, whether that fetch succeeds, times out
or raises — only the log record differs. -/
theorem C6_wait_for_update_single_fetch :
    (∀ (wid : Nat) (s : MState),
      registerForUpdate wid s = register ⟨wid, none⟩ s)
  ∧ (∀ (outcomes : Nat → FetchOutcome) (wid r fuel : Nat), 2 ≤ fuel →
      run outcomes (fun _ => []) fuel
          (registerForUpdate wid ⟨[], r, false⟩).1 =
        .done ⟨[], 0, false⟩ 1 [(wid, 1)] (fetchLogs (outcomes 1))) := by
  refine ⟨fun wid s => rfl, ?_⟩
  intro outcomes wid r fuel hfuel
  have hstate : (registerForUpdate wid ⟨[], r, false⟩).1 =
      ⟨[⟨wid, none⟩], 0, true⟩ := by
    simp [registerForUpdate, register]
  rw [run, hstate]
  cases fuel with
  | zero => omega
  | succ f =>
    rw [runAux]
    have hiter : iteration 1 (outcomes 1) [] ⟨[⟨wid, none⟩], 0, true⟩ =
        .ok ⟨[], 0, true⟩ [wid] false (fetchLogs (outcomes 1)) := by
      have hs : splitMet 1 [⟨wid, none⟩] = some ([⟨wid, none⟩], []) := rfl
      rw [iteration_noarr 1 (outcomes 1) ⟨[⟨wid, none⟩], 0, true⟩ _ _ hs]
      rfl
    simp only [Nat.zero_add, List.isEmpty_cons, Bool.false_eq_true, if_false,
      hiter, List.map_cons, List.map_nil, List.nil_append]
    rw [runAux_done_of_empty outcomes (fun _ => []) f 1 0 true _ _ (by omega)]

/-- Witness for C6: a concrete `wait_for_update` registration on an idle
manager, with a fetch that times out, is still released after one fetch. -/
theorem C6_wait_for_update_single_fetch_witness :
    2 ≤ 2 ∧
      run (fun _ => .timeout) (fun _ => []) 2
          (registerForUpdate 7 ⟨[], 3, false⟩).1 =
        .done ⟨[], 0, false⟩ 1 [(7, 1)]
          (fetchLogs ((fun _ => FetchOutcome.timeout) 1)) :=
  ⟨le_refl 2,
    C6_wait_for_update_single_fetch.2 (fun _ => .timeout) 7 3 2 (le_refl 2)⟩

/-- C7 (code bug): the `Command` enum of api_types.py defines no `PRESET`
member, so `MotorImpl.preset` fails on the attribute lookup `Command.PRESET`
before any control call is issued, and `expectedState` — whose dict literal
also evaluates `Command.PRESET` — raises on every call, making every command's
verification predicate raise when evaluated.  The up/down/stop methods do
issue exactly one `"channel"`-scoped control call, then the fixed 2-second
sleep, then the conditioned update; and the dict literal, as written, reads
UP→"UP", DOWN→"DOWN", STOP→"STOP", PRESET→"STOP", matching the claim's
intended mapping. -/
theorem C7_preset_missing_member :
    motorPreset "1" = none
  ∧ commandMember .PRESET = none
  ∧ motorUp "1" =
      some [.control .UP "channel" "1", .sleepSecs 2, .updateWithCondition]
  ∧ motorDown "1" =
      some [.control .DOWN "channel" "1", .sleepSecs 2, .updateWithCondition]
  ∧ motorStop "1" =
      some [.control .STOP "channel" "1", .sleepSecs 2, .updateWithCondition]
  ∧ (∀ c : Command, expectedState c = none)
  ∧ (∀ (c : Command) (st : String), motorCondition c st = none)
  ∧ expectedStateTable .UP = "UP"
  ∧ expectedStateTable .DOWN = "DOWN"
  ∧ expectedStateTable .STOP = "STOP"
  ∧ expectedStateTable .PRESET = "STOP" := by
  refine ⟨rfl, rfl, rfl, rfl, rfl, ?_, ?_, rfl, rfl, rfl, rfl⟩
  · intro c
    cases c <;> rfl
  · intro c st
    cases c <;> rfl

/-- C8 (code bug): reconciling an existing motor list through the
device.py `onListUpdated` puts `None` — `Motor.update`'s return value — in the
returned list instead of the mutated motor object, although the in-place
mutation itself happens and preserves the object (`uid` 0); the group variant
(whose `update` ends in `return self`) and the model.py `onListUpdated` keep
the existing object in the list as the claim describes, drop removed
identifiers and construct fresh entities for new identifiers. -/
theorem C8_onListUpdated_identity :
    onListUpdatedDevice motorUpdate [⟨0, "1", 5⟩] [⟨"1", 7⟩] 1 = [none]
  ∧ (motorUpdate ⟨0, "1", 5⟩ ⟨"1", 7⟩).1 = ⟨0, "1", 7⟩
  ∧ (motorUpdate ⟨0, "1", 5⟩ ⟨"1", 7⟩).2 = none
  ∧ onListUpdatedDevice groupUpdate [⟨0, "1", 5⟩] [⟨"1", 7⟩] 1 =
      [some ⟨0, "1", 7⟩]
  ∧ onListUpdatedModel [⟨0, "1", 5⟩] 1 [⟨"1", 7⟩] = [⟨0, "1", 7⟩]
  ∧ onListUpdatedModel [⟨0, "1", 5⟩, ⟨1, "2", 6⟩] 2 [⟨"2", 9⟩, ⟨"3", 4⟩] =
      [⟨1, "2", 9⟩, ⟨2, "3", 4⟩]
  ∧ onListUpdatedDevice motorUpdate [⟨0, "1", 5⟩, ⟨1, "2", 6⟩]
      [⟨"2", 9⟩, ⟨"3", 4⟩] 2 = [none, some ⟨2, "3", 4⟩] := by
  decide

/-- C9: every `wait_for_condition` call zeroes the shared retry counter at
registration time, so a caller registering while other waiters are pending
restores the whole pending set's remaining budget to the full maximum: from
the post-registration state — whatever the counter held before — the loop
performs another `POLL_RETRIES + 1` fetches before giving up on never-true
waiters. -/
theorem C9_registration_resets_counter :
    (∀ (w : Waiter) (s : MState),
      ((register w s).1).retries = 0 ∧
        ((register w s).1).waiters = s.waiters ++ [w])
  ∧ (∀ (outcomes : Nat → FetchOutcome) (s : MState) (w : Waiter) (fuel : Nat),
      (∀ w2 ∈ s.waiters ++ [w], ∀ k, condMet w2 k = some false) → 7 ≤ fuel →
      ∃ logs,
        run outcomes (fun _ => []) fuel (register w s).1 =
          .done ⟨[], POLL_RETRIES + 1, false⟩ (POLL_RETRIES + 1)
            ((s.waiters ++ [w]).map fun w2 => (w2.wid, POLL_RETRIES + 1))
            logs) := by
  refine ⟨fun w s => ⟨rfl, rfl⟩, ?_⟩
  intro outcomes s w fuel hconds hfuel
  rw [run]
  obtain ⟨logs2, hres⟩ := runAux_exhaustion outcomes (s.waiters ++ [w])
    (by simp) hconds 6 0 fuel 0 [] [] (by decide) (by decide) (by omega)
  refine ⟨logs2, ?_⟩
  rw [show (register w s).1 = ⟨s.waiters ++ [w], 0, true⟩ from rfl, hres]
  simp [POLL_RETRIES]

/-- Witness for C9: registering a second never-true waiter while the counter
stands at 4 restores the full six-fetch budget. -/
theorem C9_registration_resets_counter_witness :
    (∀ w2 ∈ (⟨[wFalseB], 4, true⟩ : MState).waiters ++ [wFalse2], ∀ k,
      condMet w2 k = some false) ∧ 7 ≤ 7 ∧
    ∃ logs,
      run (fun _ => .ok) (fun _ => []) 7
          (register wFalse2 ⟨[wFalseB], 4, true⟩).1 =
        .done ⟨[], POLL_RETRIES + 1, false⟩ (POLL_RETRIES + 1)
          (((⟨[wFalseB], 4, true⟩ : MState).waiters ++ [wFalse2]).map
            fun w2 => (w2.wid, POLL_RETRIES + 1)) logs :=
  ⟨by
      intro w2 hw2 k
      simp only [List.cons_append, List.nil_append, List.mem_cons,
        List.not_mem_nil, or_false] at hw2
      rcases hw2 with rfl | rfl <;> rfl,
    le_refl 7,
    C9_registration_resets_counter.2 (fun _ => .ok) ⟨[wFalseB], 4, true⟩
      wFalse2 7
      (by
        intro w2 hw2 k
        simp only [List.cons_append, List.nil_append, List.mem_cons,
          List.not_mem_nil, or_false] at hw2
        rcases hw2 with rfl | rfl <;> rfl)
      (le_refl 7)⟩

/-- C10: an exception raised by a caller-supplied predicate is not caught:
(i) the iteration ends as `crashed`, with every pending waiter — arrivals and
previously pending waiters alike, including those whose predicates did not
raise — still in the list and no event set, and with the task handle still
set; (ii) the loop maps that iteration to an abnormal `crashed` run result at
that fetch index with no additional releases; (iii) any later
`wait_for_condition` call sees the non-null handle and never starts a new
polling task. -/
theorem C10_predicate_exception_kills_polling :
    (∀ (k : Nat) (o : FetchOutcome) (arr : List Waiter) (s : MState),
      (∃ w ∈ s.waiters ++ arr, condMet w k = none) →
      iteration k o arr s =
        .crashed
          ⟨s.waiters ++ arr, if arr.isEmpty then s.retries else 0, true⟩
          (fetchLogs o))
  ∧ (∀ (outcomes : Nat → FetchOutcome) (arrivals : Nat → List Waiter)
        (fuel k : Nat) (s : MState) (rel : List (Nat × Nat))
        (logs : List LogEntry) (cs : MState) (ilogs : List LogEntry),
      1 ≤ fuel → ¬s.waiters.isEmpty →
      iteration (k + 1) (outcomes (k + 1)) (arrivals (k + 1)) s =
        .crashed cs ilogs →
      runAux outcomes arrivals fuel k s rel logs =
        .crashed cs (k + 1) rel (logs ++ ilogs))
  ∧ (∀ (w : Waiter) (s : MState), s.pollingTask = true →
      (register w s).2 = false) := by
  refine ⟨?_, runAux_crash_step, fun w s h => by simp [register, h]⟩
  intro k o arr s h
  exact iteration_crashed_of_raise k o arr s h

/-- Witness for C10: with waiter 1 (predicate false, does not raise) and
waiter 3 (predicate raises) pending, the first iteration crashes with both
waiters still pending and the handle set, the run is abnormal with nothing
released, and a registration against the crashed state spawns no task. -/
theorem C10_predicate_exception_kills_polling_witness :
    (∃ w ∈ (⟨[wFalseA, wRaise3], 0, true⟩ : MState).waiters ++ [],
      condMet w 1 = none) ∧
    (iteration 1 .ok [] ⟨[wFalseA, wRaise3], 0, true⟩ =
      .crashed
        ⟨(⟨[wFalseA, wRaise3], 0, true⟩ : MState).waiters ++ [],
          if ([] : List Waiter).isEmpty then 0 else 0, true⟩
        (fetchLogs .ok)) ∧
    (1 ≤ 1 ∧ ¬(⟨[wFalseA, wRaise3], 0, true⟩ : MState).waiters.isEmpty) ∧
    (runAux (fun _ => .ok) (fun _ => []) 1 0 ⟨[wFalseA, wRaise3], 0, true⟩ []
        [] =
      .crashed ⟨[wFalseA, wRaise3], 0, true⟩ 1 [] ([] ++ [])) ∧
    ((⟨[wFalseA, wRaise3], 0, true⟩ : MState).pollingTask = true ∧
      (register wNone2 ⟨[wFalseA, wRaise3], 0, true⟩).2 = false) :=
  ⟨⟨wRaise3, by simp, rfl⟩,
    C10_predicate_exception_kills_polling.1 1 .ok [] ⟨[wFalseA, wRaise3], 0, true⟩
      ⟨wRaise3, by simp, rfl⟩,
    ⟨le_refl 1, by simp⟩,
    C10_predicate_exception_kills_polling.2.1 (fun _ => .ok) (fun _ => []) 1 0
      ⟨[wFalseA, wRaise3], 0, true⟩ [] [] ⟨[wFalseA, wRaise3], 0, true⟩ []
      (le_refl 1) (by simp)
      (by
        rw [C10_predicate_exception_kills_polling.1 1 .ok []
          ⟨[wFalseA, wRaise3], 0, true⟩ ⟨wRaise3, by simp, rfl⟩]
        rfl),
    rfl,
    C10_predicate_exception_kills_polling.2.2 wNone2
      ⟨[wFalseA, wRaise3], 0, true⟩ rfl⟩

end Pygaposa
